import Mathlib

/-!
Verification of the Voice-Journal AI-processing pipeline.

Shallow embedding of the queue/worker core of the repository:
  - `src/src/db/types.ts`    : data model (Entry, AiJob, statuses)
  - `src/src/db/entries.ts`  : entry store and job queue operations
  - `src/src/ai/worker.ts`   : drain loop, transcribe/summarize processing
  - `src/src/ai/themes.ts`   : backend client response handling, formatSummary
  - `src/app/entry/[id].tsx` : parseSummary

JavaScript strings are embedded as `String` (a structure over `List Char`);
the string helpers (`trim`, `split`, the regex replaces actually used) are
given as executable character-list functions.  Timestamps (`Date.now()`) and
generated identifiers (`makeId`) are passed explicitly as parameters.  Remote
AI backend calls are oracles (`Except String`-valued parameters): a `.error`
result models a rejected promise carrying that message.
-/

namespace VoiceJournal

/-! ## JavaScript string primitives -/

/-- Whitespace class used by JavaScript `trim` / `\s` on the characters this
codebase manipulates. -/
def isJsWs (c : Char) : Bool :=
  c = ' ' || c = '\t' || c = '\n' || c = '\r' || c = '\x0b' || c = '\x0c'

/-- Remove a trailing run of whitespace characters. -/
def dropTrailingWs : List Char → List Char
  | [] => []
  | c :: rest =>
    let r := dropTrailingWs rest
    if r = [] && isJsWs c then [] else c :: r

/-- JavaScript `String.prototype.trim` on character lists. -/
def trimChars (l : List Char) : List Char :=
  dropTrailingWs (l.dropWhile isJsWs)

/-- JavaScript `s.trim()`. -/
def jsTrim (s : String) : String :=
  ⟨trimChars s.data⟩

/-- JavaScript `s.split('\n')` on character lists. -/
def splitOnNl : List Char → List (List Char)
  | [] => [[]]
  | c :: rest =>
    if c = '\n' then [] :: splitOnNl rest
    else
      match splitOnNl rest with
      | [] => [[c]]
      | s :: ss => (c :: s) :: ss

/-! ## Data model (`src/src/db/types.ts`) -/

inductive AiStatus
  | none
  | queued
  | transcribed
  | summarized
  | error
deriving DecidableEq, Repr

inductive AiJobType
  | transcribe
  | summarize
deriving DecidableEq, Repr

inductive AiJobStatus
  | queued
  | running
  | done
  | error
deriving DecidableEq, Repr

structure Entry where
  id : String
  createdAt : Nat
  audioUri : String
  durationSec : Nat
  transcript : Option String
  summary : Option String
  mood : Option String
  aiStatus : AiStatus
  errorMsg : Option String
deriving DecidableEq, Repr

structure AiJob where
  id : String
  entryId : String
  type : AiJobType
  status : AiJobStatus
  attempts : Nat
  lastError : Option String
  createdAt : Nat
  updatedAt : Nat
deriving DecidableEq, Repr

structure Tag where
  id : String
  name : String
deriving DecidableEq, Repr

/-- One workspace's SQLite database: the `entries`, `ai_jobs`, `tags` and
`entry_tags` tables, rows kept in insertion (rowid) order. -/
structure Db where
  entries : List Entry
  jobs : List AiJob
  tags : List Tag
  entryTags : List (String × String)
deriving DecidableEq, Repr

/-! ## Entry store (`src/src/db/entries.ts`) -/

/-- Fields of an `UPDATE entries SET ...` patch; `Option.none` means the key
is absent from the patch object, `Option.some Option.none` means the column
is set to SQL `NULL` (`EntryPatch` in `types.ts`, applied by `updateEntry`). -/
structure EntryPatch where
  audioUri : Option String := Option.none
  durationSec : Option Nat := Option.none
  transcript : Option (Option String) := Option.none
  summary : Option (Option String) := Option.none
  mood : Option (Option String) := Option.none
  aiStatus : Option AiStatus := Option.none
  errorMsg : Option (Option String) := Option.none
deriving DecidableEq, Repr

def applyPatch (p : EntryPatch) (e : Entry) : Entry :=
  { e with
    audioUri := p.audioUri.getD e.audioUri
    durationSec := p.durationSec.getD e.durationSec
    transcript := p.transcript.getD e.transcript
    summary := p.summary.getD e.summary
    mood := p.mood.getD e.mood
    aiStatus := p.aiStatus.getD e.aiStatus
    errorMsg := p.errorMsg.getD e.errorMsg }

/-- `getEntry` (`entries.ts` line 118): first row with the given id. -/
def getEntry (id : String) (db : Db) : Option Entry :=
  db.entries.find? (fun e => e.id == id)

/-- `updateEntry` (`entries.ts` line 136): `UPDATE entries SET ... WHERE id = ?`. -/
def updateEntry (id : String) (p : EntryPatch) (db : Db) : Db :=
  { db with entries := db.entries.map (fun e => if e.id = id then applyPatch p e else e) }

/-! ## Job queue (`src/src/db/entries.ts` lines 324-449) -/

structure EnqueueResult where
  enqueued : Bool
  jobId : Option String
deriving DecidableEq, Repr

/-- The `WHERE entry_id = ? AND type = ? AND status IN ('queued','running')`
filter of `enqueueAiJob`. -/
def isActiveJobFor (entryId : String) (t : AiJobType) (j : AiJob) : Bool :=
  j.entryId == entryId && j.type == t &&
    (j.status == AiJobStatus.queued || j.status == AiJobStatus.running)

/-- `enqueueAiJob` (`entries.ts` line 324).  `newId` stands for `makeId()`
and `now` for `Date.now()`. -/
def enqueueAiJob (entryId : String) (t : AiJobType) (newId : String) (now : Nat)
    (db : Db) : EnqueueResult × Db :=
  match db.jobs.find? (isActiveJobFor entryId t) with
  | Option.some existing => (⟨false, Option.some existing.id⟩, db)
  | Option.none =>
    let job : AiJob :=
      { id := newId, entryId := entryId, type := t, status := AiJobStatus.queued
        attempts := 0, lastError := Option.none, createdAt := now, updatedAt := now }
    let db1 : Db := { db with jobs := db.jobs ++ [job] }
    let db2 := updateEntry entryId
      { aiStatus := Option.some AiStatus.queued, errorMsg := Option.some Option.none } db1
    (⟨true, Option.some newId⟩, db2)

/-- First row of `SELECT * FROM ai_jobs WHERE status='queued' ORDER BY
created_at ASC LIMIT 1` over a row list: earliest `createdAt`, earliest
rowid among ties. -/
def minByCreatedAt : List AiJob → Option AiJob
  | [] => Option.none
  | j :: rest =>
    match minByCreatedAt rest with
    | Option.none => Option.some j
    | Option.some k => if j.createdAt ≤ k.createdAt then Option.some j else Option.some k

def selectNextQueued (db : Db) : Option AiJob :=
  minByCreatedAt (db.jobs.filter (fun j => j.status == AiJobStatus.queued))

/-- Affected-row count of the conditional
`UPDATE ai_jobs SET status='running' WHERE id = ? AND status = 'queued'`. -/
def casClaimChanges (jobId : String) (db : Db) : Nat :=
  (db.jobs.filter (fun j => j.id == jobId && j.status == AiJobStatus.queued)).length

/-- Effect of that same conditional update on the rows. -/
def casClaimApply (jobId : String) (now : Nat) (db : Db) : Db :=
  { db with jobs := db.jobs.map (fun j =>
      if j.id == jobId && j.status == AiJobStatus.queued
      then { j with status := AiJobStatus.running, updatedAt := now } else j) }

/-- `claimNextQueuedAiJob` (`entries.ts` line 365) with the suspension point
between the SELECT and the conditional UPDATE made explicit: `mid` is the
interference another claimer may perform there (`fun d => d` when the call
runs without interference). -/
def claimNextQueuedAiJobAt (now : Nat) (mid : Db → Db) (db : Db) : Option AiJob × Db :=
  match selectNextQueued db with
  | Option.none => (Option.none, db)
  | Option.some next =>
    let db1 := mid db
    let changes := casClaimChanges next.id db1
    let db2 := casClaimApply next.id now db1
    if changes = 0 then (Option.none, db2)
    else (db2.jobs.find? (fun j => j.id == next.id), db2)

/-- `claimNextQueuedAiJob` as executed sequentially. -/
def claimNextQueuedAiJob (now : Nat) (db : Db) : Option AiJob × Db :=
  claimNextQueuedAiJobAt now (fun d => d) db

/-- `markAiJobDone` (`entries.ts` line 401). -/
def markAiJobDone (jobId : String) (now : Nat) (db : Db) : Db :=
  { db with jobs := db.jobs.map (fun j =>
      if j.id == jobId then { j with status := AiJobStatus.done, updatedAt := now } else j) }

/-- `requeueOrFailAiJob` (`entries.ts` line 407). -/
def requeueOrFailAiJob (job : AiJob) (errorMessage : String) (maxAttempts : Nat)
    (now : Nat) (db : Db) : Db :=
  let attempts := job.attempts + 1
  let failed : Bool := maxAttempts ≤ attempts
  let nextStatus := if failed then AiJobStatus.error else AiJobStatus.queued
  let db1 : Db := { db with jobs := db.jobs.map (fun j =>
      if j.id == job.id
      then { j with
              status := nextStatus
              attempts := attempts
              lastError := Option.some errorMessage
              updatedAt := now }
      else j) }
  updateEntry job.entryId
    { aiStatus := Option.some (if failed then AiStatus.error else AiStatus.queued)
      errorMsg := Option.some (Option.some errorMessage) } db1

/-! ## AI backend client (`src/src/ai/themes.ts` client section) -/

/-- `suggestTagsViaBackend` (`themes.ts` line 195), modelled on the parsed
JSON body of a 2xx response: `Option.none` stands for a `tags` field that is
missing or not an array, `Option.some tags` for the array with each element
already converted by `String(tag)`. -/
def suggestTagsViaBackend (tagsField : Option (List String)) : List String :=
  match tagsField with
  | Option.none => []
  | Option.some tags => (((tags.map jsTrim).filter (fun s => s ≠ ""))).take 8

/-- Lines of a summary blob: title first, bullets dash-prefixed
(`formatSummary`, `themes.ts` line 222 and `lib/openai.ts` line 123),
joined by `'\n'`. -/
def joinLines : List (List Char) → List Char
  | [] => []
  | [l] => l
  | l :: l2 :: ls => l ++ '\n' :: joinLines (l2 :: ls)

def formatSummaryChars (title : List Char) (bullets : List (List Char)) : List Char :=
  joinLines (title :: bullets.map (fun b => '-' :: ' ' :: b))

/-- `formatSummary(title, bullets)`. -/
def formatSummary (title : String) (bullets : List String) : String :=
  ⟨formatSummaryChars title.data (bullets.map String.data)⟩

/-- The `line.replace(/^-+\s*/, '')` step of `parseSummary`: when the line
starts with a dash, drop the leading run of dashes and then the following
run of whitespace; otherwise the regex does not match and the line is kept. -/
def stripLeadingDashes (l : List Char) : List Char :=
  match l with
  | [] => []
  | c :: rest =>
    if c = '-' then ((c :: rest).dropWhile (fun c2 => c2 = '-')).dropWhile isJsWs
    else c :: rest

def parseSummaryChars (summary : Option (List Char)) : Option (List Char) × List (List Char) :=
  let text := trimChars (summary.getD [])
  if text = [] then (Option.none, [])
  else
    let lines := ((splitOnNl text).map trimChars).filter (fun l => l ≠ [])
    let bullets := ((lines.drop 1).map
        (fun line => trimChars (stripLeadingDashes line))).filter (fun l => l ≠ [])
    (lines.head?, bullets)

/-- `parseSummary` (`app/entry/[id].tsx` line 503). -/
def parseSummary (summary : Option String) : Option String × List String :=
  let r := parseSummaryChars (summary.map String.data)
  (r.1.map (fun l => (⟨l⟩ : String)), r.2.map (fun l => (⟨l⟩ : String)))

/-! ## Worker (`src/src/ai/worker.ts`) -/

def MAX_ATTEMPTS : Nat := 3

/-- `isLikelyNonEnglishTranscript` (`worker.ts` line 11): true when the text
is non-null, non-empty and contains a Devanagari character (U+0900-U+097F). -/
def isLikelyNonEnglishTranscript (text : Option String) : Bool :=
  match text with
  | Option.none => false
  | Option.some s =>
    if s = "" then false
    else s.data.any (fun c => 0x900 ≤ c.toNat && c.toNat ≤ 0x97F)

/-- `normalizeError` (`worker.ts` line 18) on the message of a thrown `Error`. -/
def normalizeError (m : String) : String :=
  if m = "Network request failed" then
    "Network request failed. Check EXPO_PUBLIC_AI_API_BASE_URL, local AI server status, and same Wi-Fi between phone and laptop."
  else m

-- `replace(/\s+/g, ' ')`: collapse runs of whitespace to single spaces.
-- `collapseWsSkip` is the state inside a whitespace run whose single `' '`
-- was already emitted.
mutual

def collapseWs : List Char → List Char
  | [] => []
  | c :: rest => if isJsWs c then ' ' :: collapseWsSkip rest else c :: collapseWs rest

def collapseWsSkip : List Char → List Char
  | [] => []
  | c :: rest => if isJsWs c then collapseWsSkip rest else c :: collapseWs rest

end

def normalizeTagName (name : String) : String :=
  ⟨collapseWs (trimChars name.data)⟩

/-- `createTag` (`entries.ts` line 172); `freshId` stands for `makeId('tag')`. -/
def createTag (freshId : String) (name : String) (db : Db) : Except String (Tag × Db) :=
  let clean := normalizeTagName name
  if clean = "" then Except.error "Tag name cannot be empty."
  else
    match db.tags.find? (fun t => t.name.toLower == clean.toLower) with
    | Option.some t => Except.ok (t, db)
    | Option.none =>
      let tag : Tag := ⟨freshId, clean⟩
      Except.ok (tag, { db with tags := db.tags ++ [tag] })

/-- `attachTag` (`entries.ts` line 198): `INSERT OR IGNORE INTO entry_tags`. -/
def attachTag (entryId : String) (tagId : String) (db : Db) : Db :=
  if db.entryTags.contains (entryId, tagId) then db
  else { db with entryTags := db.entryTags ++ [(entryId, tagId)] }

/-- `[...new Set(xs)]`: deduplicate keeping first occurrences. -/
def uniqueFirst : List String → List String
  | [] => []
  | x :: xs => x :: uniqueFirst (xs.filter (fun y => y ≠ x))
termination_by l => l.length
decreasing_by
  exact Nat.lt_succ_of_le (List.length_filter_le (fun y => y ≠ x) xs)

def syncLoop (idGen : Nat → String) (entryId : String) :
    List String → Nat → Nat → Db → Db × Except String Nat
  | [], _, attached, db => (db, Except.ok attached)
  | name :: rest, k, attached, db =>
    match createTag (idGen k) name db with
    | Except.error m => (db, Except.error m)
    | Except.ok (tag, db1) =>
      let db2 := attachTag entryId tag.id db1
      syncLoop idGen entryId rest (k + 1) (attached + 1) db2

/-- `syncSuggestedTags` (`worker.ts` line 28). -/
def syncSuggestedTags (idGen : Nat → String) (entryId : String) (tags : List String)
    (db : Db) : Db × Except String Nat :=
  let unique := uniqueFirst ((tags.map jsTrim).filter (fun s => s ≠ ""))
  syncLoop idGen entryId unique 0 0 db

/-- `generateTagsForEntry` (`worker.ts` line 41).  `suggest` is the
`suggestTagsViaBackend` oracle, applied to the trimmed transcript and
summary the code passes; the returned `Db` carries every write performed
before a throw, and the `Except.error` payload is the thrown message. -/
def generateTagsForEntry (suggest : String → String → Except String (List String))
    (idGen : Nat → String) (entryId : String) (db : Db) : Db × Except String (Nat × Nat) :=
  match getEntry entryId db with
  | Option.none => (db, Except.error ("Entry " ++ entryId ++ " not found."))
  | Option.some entry =>
    let transcript := jsTrim (entry.transcript.getD "")
    let summary := jsTrim (entry.summary.getD "")
    if transcript = "" && summary = "" then
      (db, Except.error "Add transcript or summary first, then generate tags.")
    else
      match suggest transcript summary with
      | Except.error e =>
        let message := normalizeError e
        (updateEntry entryId
          { errorMsg := Option.some (Option.some ("Tag generation failed: " ++ message)) } db,
         Except.error message)
      | Except.ok suggestedTags =>
        let r := syncSuggestedTags idGen entryId suggestedTags db
        match r.2 with
        | Except.error m =>
          let message := normalizeError m
          (updateEntry entryId
            { errorMsg := Option.some (Option.some ("Tag generation failed: " ++ message)) } r.1,
           Except.error message)
        | Except.ok attached =>
          (updateEntry entryId { errorMsg := Option.some Option.none } r.1,
           Except.ok (suggestedTags.length, attached))

/-- `processTranscribeJob` (`worker.ts` line 66).  `transcribe` is the
`transcribeViaBackend` oracle, `newJobId`/`now` the generated id and clock
for the chained enqueue.  Besides the final `Db` it returns whether the
remote transcription operation was invoked and the call's outcome. -/
def processTranscribeJob (transcribe : String → Except String String)
    (newJobId : String) (now : Nat) (job : AiJob) (db : Db) :
    Db × Bool × Except String Unit :=
  match getEntry job.entryId db with
  | Option.none => (db, false, Except.error ("Entry " ++ job.entryId ++ " not found."))
  | Option.some entry =>
    let hasTranscript : Bool :=
      match entry.transcript with
      | Option.none => false
      | Option.some t => jsTrim t ≠ ""
    if hasTranscript && !(isLikelyNonEnglishTranscript entry.transcript) then
      let db1 := markAiJobDone job.id now db
      let db2 := (enqueueAiJob entry.id AiJobType.summarize newJobId now db1).2
      let db3 := updateEntry entry.id { aiStatus := Option.some AiStatus.queued } db2
      (db3, false, Except.ok ())
    else
      match transcribe entry.audioUri with
      | Except.error m => (db, true, Except.error m)
      | Except.ok transcript =>
        let db1 := updateEntry entry.id
          { transcript := Option.some (Option.some transcript)
            aiStatus := Option.some AiStatus.transcribed
            errorMsg := Option.some Option.none } db
        let db2 := markAiJobDone job.id now db1
        let db3 := (enqueueAiJob entry.id AiJobType.summarize newJobId now db2).2
        let db4 := updateEntry entry.id { aiStatus := Option.some AiStatus.queued } db3
        (db4, true, Except.ok ())

/-- `processSummarizeJob` (`worker.ts` line 95).  `summarize` is the
`summarizeViaBackend` oracle returning the validated `{title, bullets}`,
`suggest`/`idGen` feed the inline tag generation. -/
def processSummarizeJob (summarize : String → Except String (String × List String))
    (suggest : String → String → Except String (List String)) (idGen : Nat → String)
    (now : Nat) (job : AiJob) (db : Db) : Db × Except String Unit :=
  match getEntry job.entryId db with
  | Option.none => (db, Except.error ("Entry " ++ job.entryId ++ " not found."))
  | Option.some entry =>
    let hasTranscript : Bool :=
      match entry.transcript with
      | Option.none => false
      | Option.some t => jsTrim t ≠ ""
    if !hasTranscript then (db, Except.error "Cannot summarize without transcript.")
    else
      match summarize (entry.transcript.getD "") with
      | Except.error m => (db, Except.error m)
      | Except.ok (title, bullets) =>
        let summary := formatSummary title bullets
        let db1 := updateEntry entry.id
          { summary := Option.some (Option.some summary)
            aiStatus := Option.some AiStatus.summarized
            errorMsg := Option.some Option.none } db
        let r := generateTagsForEntry suggest idGen entry.id db1
        let db2 :=
          match r.2 with
          | Except.ok _ => r.1
          | Except.error m =>
            let message := normalizeError m
            updateEntry entry.id
              { aiStatus := Option.some AiStatus.summarized
                errorMsg := Option.some (Option.some ("Tag generation failed: " ++ message)) } r.1
        let db3 := markAiJobDone job.id now db2
        (db3, Except.ok ())

/-! ## Drain loop and single-flight guard (`worker.ts` lines 144-172,
`src/src/workspace/state.ts`) -/

inductive Workspace
  | professional
  | personal
deriving DecidableEq, Repr

/-- Observable worker actions, for stating the flag/claim ordering. -/
inductive WorkerEvent
  | flagSet (w : Workspace)
  | claimAttempt (claimed : Option String)
  | flagCleared (w : Workspace)
deriving DecidableEq, Repr

/-- The `while (true)` drain loop body of `runAiWorker`: claim, process,
requeue-on-error; `process` abstracts `processJob` (state plus outcome; an
`Except.error` is the caught rejection).  `fuel` bounds the number of
passes modelled; each pass emits a `claimAttempt` event. -/
def runAiWorkerLoop (process : AiJob → Db → Db × Except String Unit)
    (maxAttempts now : Nat) : Nat → Db → Db × List WorkerEvent
  | 0, db => (db, [])
  | fuel + 1, db =>
    match claimNextQueuedAiJob now db with
    | (Option.none, db1) => (db1, [WorkerEvent.claimAttempt Option.none])
    | (Option.some job, db1) =>
      let pr := process job db1
      let db2 :=
        match pr.2 with
        | Except.ok _ => pr.1
        | Except.error m => requeueOrFailAiJob job (normalizeError m) maxAttempts now pr.1
      let rest := runAiWorkerLoop process maxAttempts now fuel db2
      (rest.1, WorkerEvent.claimAttempt (Option.some job.id) :: rest.2)

/-- In-process state: the module-level `runningByWorkspace` record plus each
workspace's database (`scopedOptions` routes every db call to `dbs w`). -/
structure WorkerSys where
  runningByWorkspace : Workspace → Bool
  dbs : Workspace → Db

/-- `runAiWorker` (`worker.ts` line 144).  `body` is the try-block (the
drain loop over the workspace database); since in JavaScript any awaited
operation inside it may reject, it returns its events, final database state
and an `Except` outcome, and the `finally` clears the flag in either case. -/
def runAiWorker (w : Workspace)
    (body : Db → Db × List WorkerEvent × Except String Unit) (s : WorkerSys) :
    WorkerSys × List WorkerEvent × Except String Unit :=
  if s.runningByWorkspace w then (s, [], Except.ok ())
  else
    let s1 : WorkerSys :=
      { s with runningByWorkspace := fun v => if v = w then true else s.runningByWorkspace v }
    let r := body (s1.dbs w)
    ({ runningByWorkspace := fun v => if v = w then false else s1.runningByWorkspace v
       dbs := fun v => if v = w then r.1 else s1.dbs v },
     WorkerEvent.flagSet w :: r.2.1 ++ [WorkerEvent.flagCleared w],
     r.2.2)

/-- `runAiWorker` with the concrete drain loop as its body. -/
def runAiWorkerOn (w : Workspace) (process : AiJob → Db → Db × Except String Unit)
    (now fuel : Nat) (s : WorkerSys) : WorkerSys × List WorkerEvent × Except String Unit :=
  runAiWorker w
    (fun db =>
      let r := runAiWorkerLoop process MAX_ATTEMPTS now fuel db
      (r.1, r.2, Except.ok ())) s

/-! ## Concrete fixtures used by witnesses -/

def entry1 : Entry :=
  ⟨"e1", 10, "file://a.m4a", 5, Option.none, Option.none, Option.none,
   AiStatus.none, Option.none⟩

def jobT1 : AiJob :=
  ⟨"j1", "e1", AiJobType.transcribe, AiJobStatus.queued, 0, Option.none, 100, 100⟩

def dbNoJob : Db := ⟨[entry1], [], [], []⟩

def dbWithJob : Db := ⟨[entry1], [jobT1], [], []⟩

/-- A try-block body whose awaited work rejects immediately. -/
def bodyFail : Db → Db × List WorkerEvent × Except String Unit :=
  fun db => (db, [], Except.error "crash")

/-- Worker state with no drain loop active in any workspace. -/
def sysIdle : WorkerSys := ⟨fun _ => false, fun _ => dbWithJob⟩

/-- Worker state with a drain loop already active for `professional`. -/
def sysBusy : WorkerSys := ⟨fun v => v == Workspace.professional, fun _ => dbWithJob⟩

/-- Entry whose transcript is non-empty but contains Devanagari text. -/
def entryHindi : Entry :=
  ⟨"e2", 11, "file://b.m4a", 6, Option.some "नमस्ते", Option.none, Option.none,
   AiStatus.queued, Option.none⟩

def jobT2 : AiJob :=
  ⟨"j2", "e2", AiJobType.transcribe, AiJobStatus.running, 0, Option.none, 102, 102⟩

def dbHindi : Db := ⟨[entryHindi], [jobT2], [], []⟩

/-- Entry with a non-empty English transcript. -/
def entryEng : Entry :=
  ⟨"e3", 12, "file://c.m4a", 7, Option.some "hello world", Option.none, Option.none,
   AiStatus.queued, Option.none⟩

def jobT3 : AiJob :=
  ⟨"j3", "e3", AiJobType.transcribe, AiJobStatus.running, 0, Option.none, 103, 103⟩

def dbEng : Db := ⟨[entryEng], [jobT3], [], []⟩

/-- Transcription oracle that always succeeds. -/
def transcribeOracleOk : String → Except String String := fun _ => Except.ok "hello"

def jobS3 : AiJob :=
  ⟨"j4", "e3", AiJobType.summarize, AiJobStatus.running, 0, Option.none, 104, 104⟩

def dbSumm : Db := ⟨[entryEng], [jobS3], [], []⟩

/-- Summarization oracle that succeeds with a fixed summary. -/
def summOracleOk : String → Except String (String × List String) :=
  fun _ => Except.ok ("Title", ["b1"])

/-- Tag-suggestion oracle that always fails. -/
def suggestFailOracle : String → String → Except String (List String) :=
  fun _ _ => Except.error "tags down"

def idGenW : Nat → String := fun _ => "tg"

/-- A job already marked done, and a database containing it. -/
def jobDone : AiJob :=
  ⟨"j5", "e1", AiJobType.transcribe, AiJobStatus.done, 0, Option.none, 105, 105⟩

def dbDone : Db := ⟨[entry1], [jobDone], [], []⟩

/-! ## List and string helper lemmas -/

theorem find?_map_pres {α : Type} (key : α → String) (f : α → α)
    (hf : ∀ a, key (f a) = key a) (l : List α) (s : String) :
    (l.map f).find? (fun a => key a == s) = (l.find? (fun a => key a == s)).map f := by
  induction l with
  | nil => rfl
  | cons a t ih =>
    by_cases h : key a == s
    · simp [List.find?, hf, h]
    · simp only [List.map_cons, List.find?, hf a]
      rw [Bool.of_not_eq_true h]
      exact ih

theorem nodup_key_inj {α : Type} (key : α → String) {l : List α}
    (h : (l.map key).Nodup) {a b : α} (ha : a ∈ l) (hb : b ∈ l) (hk : key a = key b) :
    a = b := by
  induction l with
  | nil => cases ha
  | cons x t ih =>
    simp only [List.map_cons, List.nodup_cons] at h
    rcases List.mem_cons.mp ha with rfl | ha2
    · rcases List.mem_cons.mp hb with rfl | hb2
      · rfl
      · exact absurd (hk ▸ List.mem_map_of_mem key hb2) h.1
    · rcases List.mem_cons.mp hb with rfl | hb2
      · exact absurd (hk ▸ List.mem_map_of_mem key ha2) h.1
      · exact ih h.2 ha2 hb2

theorem minByCreatedAt_eq_none {l : List AiJob} :
    minByCreatedAt l = Option.none ↔ l = [] := by
  cases l with
  | nil => simp [minByCreatedAt]
  | cons a t =>
    simp only [minByCreatedAt]
    cases hm : minByCreatedAt t with
    | none => simp
    | some k => by_cases hle : a.createdAt ≤ k.createdAt <;> simp [hle]

theorem minByCreatedAt_mem {l : List AiJob} {j : AiJob}
    (h : minByCreatedAt l = Option.some j) : j ∈ l := by
  induction l generalizing j with
  | nil => simp [minByCreatedAt] at h
  | cons a t ih =>
    simp only [minByCreatedAt] at h
    cases hm : minByCreatedAt t with
    | none => rw [hm] at h; cases h; exact List.mem_cons_self a t
    | some k =>
      rw [hm] at h
      by_cases hle : a.createdAt ≤ k.createdAt
      · simp [hle] at h; cases h; exact List.mem_cons_self a t
      · simp [hle] at h; exact List.mem_cons_of_mem a (h ▸ ih hm)

theorem minByCreatedAt_le {l : List AiJob} {j : AiJob}
    (h : minByCreatedAt l = Option.some j) : ∀ k ∈ l, j.createdAt ≤ k.createdAt := by
  induction l generalizing j with
  | nil => simp [minByCreatedAt] at h
  | cons a t ih =>
    intro k hk
    simp only [minByCreatedAt] at h
    cases hm : minByCreatedAt t with
    | none =>
      rw [hm] at h; cases h
      rcases List.mem_cons.mp hk with rfl | hk2
      · exact Nat.le_refl _
      · cases ((minByCreatedAt_eq_none).mp hm ▸ hk2 : k ∈ ([] : List AiJob))
    | some m =>
      rw [hm] at h
      by_cases hle : a.createdAt ≤ m.createdAt
      · simp [hle] at h; cases h
        rcases List.mem_cons.mp hk with rfl | hk2
        · exact Nat.le_refl _
        · exact Nat.le_trans hle (ih hm k hk2)
      · simp [hle] at h
        rcases List.mem_cons.mp hk with rfl | hk2
        · exact Nat.le_of_lt (h ▸ Nat.lt_of_not_le hle)
        · exact h ▸ ih hm k hk2

theorem find?_key_of_nodup {α : Type} (key : α → String) {l : List α}
    (h : (l.map key).Nodup) {a : α} (ha : a ∈ l) :
    l.find? (fun x => key x == key a) = Option.some a := by
  induction l with
  | nil => cases ha
  | cons x t ih =>
    simp only [List.map_cons, List.nodup_cons] at h
    by_cases hx : (key x == key a) = true
    · rcases List.mem_cons.mp ha with rfl | ha2
      · simp [List.find?, hx]
      · exact absurd (eq_of_beq hx ▸ List.mem_map_of_mem key ha2) h.1
    · rcases List.mem_cons.mp ha with rfl | ha2
      · exact absurd (by simp) hx
      · simp only [List.find?, hx]
        exact ih h.2 ha2

/-! ## C1: enqueue idempotence and insertion -/

/-- C1: for every entry id and job type, `enqueueAiJob` with an existing
`queued`/`running` job of the same `(entryId, type)` inserts no row, leaves
the database unchanged and reports `enqueued=false` with the existing job's
id; with no such job it appends exactly one `queued` row with `attempts=0`
and sets the owning entry's `aiStatus` to `queued` while clearing `errorMsg`. -/
theorem enqueueAiJob_spec (entryId : String) (t : AiJobType) (newId : String)
    (now : Nat) (db : Db) :
    ((∃ j ∈ db.jobs, isActiveJobFor entryId t j = true) →
      (enqueueAiJob entryId t newId now db).2 = db ∧
      (enqueueAiJob entryId t newId now db).1.enqueued = false ∧
      ∃ j ∈ db.jobs, isActiveJobFor entryId t j = true ∧
        (enqueueAiJob entryId t newId now db).1.jobId = Option.some j.id) ∧
    ((∀ j ∈ db.jobs, isActiveJobFor entryId t j = false) →
      (enqueueAiJob entryId t newId now db).1.enqueued = true ∧
      (enqueueAiJob entryId t newId now db).2.jobs = db.jobs ++
        [{ id := newId, entryId := entryId, type := t, status := AiJobStatus.queued
           attempts := 0, lastError := Option.none, createdAt := now, updatedAt := now }] ∧
      (enqueueAiJob entryId t newId now db).2.entries = db.entries.map
        (fun e => if e.id = entryId
          then { e with aiStatus := AiStatus.queued, errorMsg := Option.none } else e)) := by
  constructor
  · rintro ⟨j, hj, hact⟩
    cases hfind : db.jobs.find? (isActiveJobFor entryId t) with
    | none =>
      exact absurd hact (by simpa using List.find?_eq_none.mp hfind j hj)
    | some j0 =>
      refine ⟨?_, ?_, j0, List.mem_of_find?_eq_some hfind, List.find?_some hfind, ?_⟩ <;>
        simp [enqueueAiJob, hfind]
  · intro hall
    have hfind : db.jobs.find? (isActiveJobFor entryId t) = Option.none :=
      List.find?_eq_none.mpr (fun x hx => by simp [hall x hx])
    refine ⟨?_, ?_, ?_⟩
    · simp [enqueueAiJob, hfind]
    · simp [enqueueAiJob, hfind, updateEntry]
    · simp only [enqueueAiJob, hfind, updateEntry]
      apply List.map_congr_left
      intro e _
      by_cases hid : e.id = entryId <;> simp [hid, applyPatch]

theorem enqueueAiJob_spec_witness :
    (enqueueAiJob "e1" AiJobType.transcribe "j2" 101 dbWithJob).1.enqueued = false ∧
    (enqueueAiJob "e1" AiJobType.transcribe "j2" 101 dbWithJob).2 = dbWithJob ∧
    (enqueueAiJob "e1" AiJobType.transcribe "j2" 101 dbWithJob).1.jobId = Option.some "j1" ∧
    (enqueueAiJob "e1" AiJobType.transcribe "j1" 100 dbNoJob).1.enqueued = true := by
  have h1 := (enqueueAiJob_spec "e1" AiJobType.transcribe "j2" 101 dbWithJob).1
    ⟨jobT1, by decide, by decide⟩
  have h2 := (enqueueAiJob_spec "e1" AiJobType.transcribe "j1" 100 dbNoJob).2
    (by decide)
  refine ⟨h1.2.1, h1.1, ?_, h2.1⟩
  rcases h1.2.2 with ⟨j, hj, _, hid⟩
  have : j = jobT1 := by
    have : dbWithJob.jobs = [jobT1] := by decide
    rw [this] at hj
    simpa using hj
  rw [hid, this]
  decide

/-! ## C10: duplicate enqueue leaves the entry row untouched -/

/-- C10: when `enqueueAiJob` finds an existing `queued`/`running` job for the
same `(entryId, type)` it returns `enqueued=false` and performs no write at
all: the whole database, and in particular the owning entry row, is
unchanged (no `aiStatus := queued`, no `errorMsg` clearing). -/
theorem enqueueAiJob_duplicate_frame (entryId : String) (t : AiJobType)
    (newId : String) (now : Nat) (db : Db)
    (h : ∃ j ∈ db.jobs, isActiveJobFor entryId t j = true) :
    (enqueueAiJob entryId t newId now db).1.enqueued = false ∧
    (enqueueAiJob entryId t newId now db).2 = db ∧
    getEntry entryId (enqueueAiJob entryId t newId now db).2 = getEntry entryId db := by
  rcases h with ⟨j, hj, hact⟩
  cases hfind : db.jobs.find? (isActiveJobFor entryId t) with
  | none =>
    exact absurd hact (by simpa using List.find?_eq_none.mp hfind j hj)
  | some j0 =>
    refine ⟨?_, ?_, ?_⟩ <;> simp [enqueueAiJob, hfind]

theorem enqueueAiJob_duplicate_frame_witness :
    (enqueueAiJob "e1" AiJobType.transcribe "j2" 101 dbWithJob).2 = dbWithJob ∧
    getEntry "e1" (enqueueAiJob "e1" AiJobType.transcribe "j2" 101 dbWithJob).2 =
      Option.some entry1 := by
  have h := enqueueAiJob_duplicate_frame "e1" AiJobType.transcribe "j2" 101 dbWithJob
    ⟨jobT1, by decide, by decide⟩
  refine ⟨h.2.1, ?_⟩
  rw [h.2.2]
  decide

/-! ## C2: claim is FIFO and race-safe -/

/-- C2: `claimNextQueuedAiJob` returns `null` when no job is `queued`; the
job it selects is a `queued` job with minimal `createdAt`; sequentially the
selected job is returned transitioned to `running` and only its row is
updated; and when the conditional update affects zero rows (a concurrent
claimer moved the selected job out of `queued` at the suspension point) the
call returns `null` for that attempt without retrying and without writing. -/
theorem claimNextQueuedAiJob_spec (now : Nat) (db : Db) :
    ((∀ j ∈ db.jobs, j.status ≠ AiJobStatus.queued) →
        claimNextQueuedAiJob now db = (Option.none, db)) ∧
    (∀ next, selectNextQueued db = Option.some next →
        next ∈ db.jobs ∧ next.status = AiJobStatus.queued ∧
        ∀ k ∈ db.jobs, k.status = AiJobStatus.queued → next.createdAt ≤ k.createdAt) ∧
    ((db.jobs.map AiJob.id).Nodup →
      ∀ next, selectNextQueued db = Option.some next →
        (claimNextQueuedAiJob now db).1 =
          Option.some { next with status := AiJobStatus.running, updatedAt := now } ∧
        (claimNextQueuedAiJob now db).2.jobs = db.jobs.map (fun j =>
          if j.id = next.id
          then { j with status := AiJobStatus.running, updatedAt := now } else j)) ∧
    (∀ mid next, selectNextQueued db = Option.some next →
        (∀ j ∈ (mid db).jobs, j.id = next.id → j.status ≠ AiJobStatus.queued) →
        claimNextQueuedAiJobAt now mid db = (Option.none, mid db)) := by
  have hsel_props : ∀ next, selectNextQueued db = Option.some next →
      next ∈ db.jobs ∧ next.status = AiJobStatus.queued ∧
      ∀ k ∈ db.jobs, k.status = AiJobStatus.queued → next.createdAt ≤ k.createdAt := by
    intro next hsel
    have hmem := minByCreatedAt_mem hsel
    have hq : next.status = AiJobStatus.queued := by
      have := (List.mem_filter.mp hmem).2
      simpa using this
    refine ⟨(List.mem_filter.mp hmem).1, hq, ?_⟩
    intro k hk hkq
    exact minByCreatedAt_le hsel k (List.mem_filter.mpr ⟨hk, by simp [hkq]⟩)
  refine ⟨?_, hsel_props, ?_, ?_⟩
  · intro hnone
    have hfilter : db.jobs.filter (fun j => j.status == AiJobStatus.queued) = [] := by
      rw [List.filter_eq_nil_iff]
      intro j hj
      simp [hnone j hj]
    have hsel : selectNextQueued db = Option.none := by
      rw [selectNextQueued, hfilter]
      rfl
    simp [claimNextQueuedAiJob, claimNextQueuedAiJobAt, hsel]
  · intro hnd next hsel
    rcases hsel_props next hsel with ⟨hmem, hq, _⟩
    have hchanges : casClaimChanges next.id db ≠ 0 := by
      have hin : next ∈ db.jobs.filter
          (fun j => j.id == next.id && j.status == AiJobStatus.queued) :=
        List.mem_filter.mpr ⟨hmem, by simp [hq]⟩
      have := List.ne_nil_of_mem hin
      simpa [casClaimChanges, List.length_eq_zero] using this
    have hfind : (casClaimApply next.id now db).jobs.find? (fun j => j.id == next.id) =
        Option.some { next with status := AiJobStatus.running, updatedAt := now } := by
      have hpres : ∀ j : AiJob,
          ((fun j => if j.id == next.id && j.status == AiJobStatus.queued
            then { j with status := AiJobStatus.running, updatedAt := now } else j) j).id =
            j.id := by
        intro j
        by_cases hc : (j.id == next.id && j.status == AiJobStatus.queued) = true <;>
          simp [hc]
      have := find?_map_pres AiJob.id
        (fun j => if j.id == next.id && j.status == AiJobStatus.queued
          then { j with status := AiJobStatus.running, updatedAt := now } else j)
        hpres db.jobs next.id
      rw [casClaimApply]
      simp only []
      rw [this, find?_key_of_nodup AiJob.id hnd hmem]
      simp [hq]
    constructor
    · simp only [claimNextQueuedAiJob, claimNextQueuedAiJobAt, hsel]
      rw [if_neg hchanges]
      exact hfind
    · simp only [claimNextQueuedAiJob, claimNextQueuedAiJobAt, hsel]
      rw [if_neg hchanges]
      simp only [casClaimApply]
      apply List.map_congr_left
      intro j hj
      by_cases hid : j.id = next.id
      · have : j = next := nodup_key_inj AiJob.id hnd hj hmem hid
        subst this
        simp [hid, hq]
      · simp [hid]
  · intro mid next hsel hgone
    have hchanges : casClaimChanges next.id (mid db) = 0 := by
      have : (mid db).jobs.filter
          (fun j => j.id == next.id && j.status == AiJobStatus.queued) = [] := by
        rw [List.filter_eq_nil_iff]
        intro j hj
        intro hcontra
        simp only [Bool.and_eq_true, beq_iff_eq] at hcontra
        exact hgone j hj hcontra.1 hcontra.2
      simp [casClaimChanges, this]
    have happly : casClaimApply next.id now (mid db) = mid db := by
      have hjobs : (mid db).jobs.map (fun j =>
          if j.id == next.id && j.status == AiJobStatus.queued
          then { j with status := AiJobStatus.running, updatedAt := now } else j) =
          (mid db).jobs := by
        have : ∀ j ∈ (mid db).jobs,
            (if j.id == next.id && j.status == AiJobStatus.queued
             then { j with status := AiJobStatus.running, updatedAt := now } else j) = j := by
          intro j hj
          have hc : (j.id == next.id && j.status == AiJobStatus.queued) ≠ true := by
            intro hcontra
            simp only [Bool.and_eq_true, beq_iff_eq] at hcontra
            exact hgone j hj hcontra.1 hcontra.2
          simp [hc]
        rw [List.map_congr_left this]
        exact List.map_id _
      simp only [casClaimApply]
      rw [hjobs]
    simp only [claimNextQueuedAiJobAt, hsel]
    rw [if_pos hchanges, happly]

theorem claimNextQueuedAiJob_spec_witness :
    (∀ j ∈ dbNoJob.jobs, j.status ≠ AiJobStatus.queued) ∧
    claimNextQueuedAiJob 200 dbNoJob = (Option.none, dbNoJob) ∧
    selectNextQueued dbWithJob = Option.some jobT1 ∧
    (claimNextQueuedAiJob 200 dbWithJob).1 =
      Option.some { jobT1 with status := AiJobStatus.running, updatedAt := 200 } := by
  have h0 : ∀ j ∈ dbNoJob.jobs, j.status ≠ AiJobStatus.queued := by
    intro j hj
    simp [dbNoJob] at hj
  have h1 := (claimNextQueuedAiJob_spec 200 dbNoJob).1 h0
  have hsel : selectNextQueued dbWithJob = Option.some jobT1 := by decide
  have h2 := ((claimNextQueuedAiJob_spec 200 dbWithJob).2.2.1 (by decide) jobT1 hsel).1
  exact ⟨h0, h1, hsel, h2⟩

/-! ## C3: requeue-or-fail and the retry bound -/

theorem claim_no_queued (now : Nat) (db : Db)
    (h : ∀ j ∈ db.jobs, j.status ≠ AiJobStatus.queued) :
    claimNextQueuedAiJob now db = (Option.none, db) := by
  have hfilter : db.jobs.filter (fun j => j.status == AiJobStatus.queued) = [] := by
    rw [List.filter_eq_nil_iff]
    intro j hj
    simp [h j hj]
  have hsel : selectNextQueued db = Option.none := by
    rw [selectNextQueued, hfilter]
    rfl
  simp [claimNextQueuedAiJob, claimNextQueuedAiJobAt, hsel]

theorem loop_no_queued (process : AiJob → Db → Db × Except String Unit)
    (maxAttempts now fuel : Nat) (db : Db)
    (h : ∀ j ∈ db.jobs, j.status ≠ AiJobStatus.queued) :
    (runAiWorkerLoop process maxAttempts now fuel db).1 = db := by
  cases fuel with
  | zero => rfl
  | succ f =>
    simp only [runAiWorkerLoop, claim_no_queued now db h]

theorem claim_singleton (now : Nat) (j0 : AiJob) (db : Db)
    (hjobs : db.jobs = [j0]) (hq : j0.status = AiJobStatus.queued) :
    claimNextQueuedAiJob now db =
      (Option.some { j0 with status := AiJobStatus.running, updatedAt := now },
       { db with jobs := [{ j0 with status := AiJobStatus.running, updatedAt := now }] }) := by
  have hsel : selectNextQueued db = Option.some j0 := by
    rw [selectNextQueued, hjobs]
    simp [minByCreatedAt, hq]
  have hchanges : casClaimChanges j0.id db = 1 := by
    rw [casClaimChanges, hjobs]
    simp [hq]
  have happly : casClaimApply j0.id now db =
      { db with jobs := [{ j0 with status := AiJobStatus.running, updatedAt := now }] } := by
    rw [casClaimApply, hjobs]
    simp [hq]
  simp only [claimNextQueuedAiJob, claimNextQueuedAiJobAt, hsel, hchanges, happly]
  simp [List.find?]

theorem loop_fail_drain (msg : String) (maxAttempts now : Nat) :
    ∀ n a fuel (j0 : AiJob) (db : Db), 0 < n → n + a = maxAttempts → n + 1 ≤ fuel →
    db.jobs = [j0] → j0.status = AiJobStatus.queued → j0.attempts = a →
    (runAiWorkerLoop (fun _ d => (d, Except.error msg)) maxAttempts now fuel db).1.jobs =
      [{ j0 with
          status := AiJobStatus.error
          attempts := maxAttempts
          lastError := Option.some (normalizeError msg)
          updatedAt := now }] ∧
    (runAiWorkerLoop (fun _ d => (d, Except.error msg)) maxAttempts now fuel db).1.entries =
      db.entries.map (fun e => if e.id = j0.entryId
        then { e with
                aiStatus := AiStatus.error
                errorMsg := Option.some (normalizeError msg) } else e) := by
  intro n
  induction n with
  | zero => intro a fuel j0 db hn; omega
  | succ m ih =>
    intro a fuel j0 db _ hsum hfuel hjobs hq hatt
    cases fuel with
    | zero => omega
    | succ f =>
      simp only [runAiWorkerLoop, claim_singleton now j0 db hjobs hq]
      set j1 : AiJob := { j0 with status := AiJobStatus.running, updatedAt := now } with hj1
      set db2 : Db := { db with jobs := [j1] } with hdb2
      have hreq : requeueOrFailAiJob j1 (normalizeError msg) maxAttempts now db2 =
          { db2 with
            jobs := [{ j0 with
              status := if maxAttempts ≤ a + 1 then AiJobStatus.error else AiJobStatus.queued
              attempts := a + 1, lastError := Option.some (normalizeError msg)
              updatedAt := now }]
            entries := db2.entries.map (fun e => if e.id = j0.entryId
              then { e with
                aiStatus := if maxAttempts ≤ a + 1 then AiStatus.error else AiStatus.queued
                errorMsg := Option.some (normalizeError msg) } else e) } := by
        rw [requeueOrFailAiJob]
        simp only [hj1, hdb2, hatt]
        by_cases hle : maxAttempts ≤ a + 1 <;>
          simp [hle, updateEntry, applyPatch]
      by_cases hle : maxAttempts ≤ a + 1
      · -- this is the final failing attempt: m = 0
        have hm : m = 0 := by omega
        subst hm
        have hmax : maxAttempts = a + 1 := by omega
        simp only [hreq, hle, if_pos]
        set jErr : AiJob := { j0 with
          status := AiJobStatus.error, attempts := a + 1
          lastError := Option.some (normalizeError msg), updatedAt := now } with hjerr
        set db3 : Db := { db2 with
          jobs := [jErr]
          entries := db2.entries.map (fun e => if e.id = j0.entryId
            then { e with
                    aiStatus := AiStatus.error
                    errorMsg := Option.some (normalizeError msg) } else e) } with hdb3
        have hnoq : ∀ j ∈ db3.jobs, j.status ≠ AiJobStatus.queued := by
          intro j hj
          simp only [hdb3, List.mem_singleton] at hj
          subst hj
          simp [hjerr]
        have := loop_no_queued (fun _ d => (d, Except.error msg)) maxAttempts now f db3 hnoq
        rw [this]
        constructor
        · simp [hdb3, hjerr, hmax]
        · simp [hdb3, hdb2]
      · -- requeued for another attempt
        simp only [hreq, hle, if_neg, if_false]
        set jQ : AiJob := { j0 with
          status := AiJobStatus.queued, attempts := a + 1
          lastError := Option.some (normalizeError msg), updatedAt := now } with hjq
        set db3 : Db := { db2 with
          jobs := [jQ]
          entries := db2.entries.map (fun e => if e.id = j0.entryId
            then { e with
                    aiStatus := AiStatus.queued
                    errorMsg := Option.some (normalizeError msg) } else e) } with hdb3
        have hm : 0 < m := by omega
        have hih := ih (a + 1) f jQ db3 hm (by omega) (by omega)
          (by simp [hdb3]) (by simp [hjq]) (by simp [hjq])
        rcases hih with ⟨hihj, hihe⟩
        constructor
        · rw [hihj]
        · rw [hihe]
          simp only [hdb3, hdb2, hjq]
          rw [List.map_map]
          apply List.map_congr_left
          intro e _
          by_cases hid : e.id = j0.entryId <;>
            simp [Function.comp, hid]

/-- C3: `requeueOrFailAiJob` bumps `attempts` by one off the supplied job
snapshot; when the bumped value reaches `maxAttempts` the job row becomes
`error` and the owning entry gets `aiStatus=error` with `errorMsg` set,
otherwise the job row returns to `queued` and the entry keeps
`aiStatus=queued` with `errorMsg` stamped; consequently a lone job whose
processing fails on every attempt ends, after the drain loop, with
`status=error`, `attempts=maxAttempts`, and its entry at `aiStatus=error`. -/
theorem requeueOrFailAiJob_spec (job : AiJob) (msg : String) (maxAttempts now : Nat)
    (db : Db) :
    (maxAttempts ≤ job.attempts + 1 →
      (requeueOrFailAiJob job msg maxAttempts now db).jobs = db.jobs.map (fun j =>
        if j.id = job.id
        then { j with
               status := AiJobStatus.error, attempts := job.attempts + 1
               lastError := Option.some msg, updatedAt := now } else j) ∧
      (requeueOrFailAiJob job msg maxAttempts now db).entries = db.entries.map (fun e =>
        if e.id = job.entryId
        then { e with aiStatus := AiStatus.error, errorMsg := Option.some msg } else e)) ∧
    (job.attempts + 1 < maxAttempts →
      (requeueOrFailAiJob job msg maxAttempts now db).jobs = db.jobs.map (fun j =>
        if j.id = job.id
        then { j with
               status := AiJobStatus.queued, attempts := job.attempts + 1
               lastError := Option.some msg, updatedAt := now } else j) ∧
      (requeueOrFailAiJob job msg maxAttempts now db).entries = db.entries.map (fun e =>
        if e.id = job.entryId
        then { e with aiStatus := AiStatus.queued, errorMsg := Option.some msg } else e)) ∧
    (∀ j0 : AiJob, db.jobs = [j0] → j0.status = AiJobStatus.queued → j0.attempts = 0 →
      0 < maxAttempts → ∀ fuel, maxAttempts + 1 ≤ fuel →
      (runAiWorkerLoop (fun _ d => (d, Except.error msg)) maxAttempts now fuel db).1.jobs =
        [{ j0 with
           status := AiJobStatus.error, attempts := maxAttempts
           lastError := Option.some (normalizeError msg), updatedAt := now }] ∧
      (runAiWorkerLoop (fun _ d => (d, Except.error msg)) maxAttempts now fuel db).1.entries =
        db.entries.map (fun e => if e.id = j0.entryId
          then { e with
                 aiStatus := AiStatus.error
                 errorMsg := Option.some (normalizeError msg) } else e)) := by
  refine ⟨?_, ?_, ?_⟩
  · intro hle
    constructor
    · rw [requeueOrFailAiJob]
      simp only [updateEntry]
      apply List.map_congr_left
      intro j _
      by_cases hid : j.id = job.id <;> simp [hid, hle]
    · rw [requeueOrFailAiJob]
      simp only [updateEntry]
      apply List.map_congr_left
      intro e _
      by_cases hid : e.id = job.entryId <;> simp [hid, hle, applyPatch]
  · intro hlt
    have hle : ¬ maxAttempts ≤ job.attempts + 1 := by omega
    constructor
    · rw [requeueOrFailAiJob]
      simp only [updateEntry]
      apply List.map_congr_left
      intro j _
      by_cases hid : j.id = job.id <;> simp [hid, hle]
    · rw [requeueOrFailAiJob]
      simp only [updateEntry]
      apply List.map_congr_left
      intro e _
      by_cases hid : e.id = job.entryId <;> simp [hid, hle, applyPatch]
  · intro j0 hjobs hq hatt hpos fuel hfuel
    exact loop_fail_drain msg maxAttempts now maxAttempts 0 fuel j0 db hpos
      (by omega) hfuel hjobs hq hatt

theorem requeueOrFailAiJob_spec_witness :
    (runAiWorkerLoop (fun _ d => (d, Except.error "boom")) 3 500 4 dbWithJob).1.jobs =
      [{ jobT1 with
         status := AiJobStatus.error, attempts := 3
         lastError := Option.some "boom", updatedAt := 500 }] ∧
    (runAiWorkerLoop (fun _ d => (d, Except.error "boom")) 3 500 4 dbWithJob).1.entries =
      [{ entry1 with aiStatus := AiStatus.error, errorMsg := Option.some "boom" }] ∧
    (requeueOrFailAiJob jobT1 "boom" 1 500 dbWithJob).jobs =
      [{ jobT1 with
         status := AiJobStatus.error, attempts := 1
         lastError := Option.some "boom", updatedAt := 500 }] := by
  have hdrain := (requeueOrFailAiJob_spec jobT1 "boom" 3 500 dbWithJob).2.2 jobT1
    (by decide) (by decide) (by decide) (by decide) 4 (by decide)
  have hone := (requeueOrFailAiJob_spec jobT1 "boom" 1 500 dbWithJob).1 (by decide)
  refine ⟨?_, ?_, ?_⟩
  · rw [hdrain.1]
    decide
  · rw [hdrain.2]
    decide
  · rw [hone.1]
    decide

/-! ## C4: single-flight drain loop per workspace -/

/-- C4: invoking `runAiWorker` while the drain loop for the same workspace is
active is a silent no-op (state untouched, no events, in particular no claim
attempt, and no queued second run); otherwise the per-workspace flag is set
before any event of the body (the first claim attempt included), cleared on
every exit — also when the body exits via a rejected await, whose outcome is
then propagated — and other workspaces' flags and databases are untouched. -/
theorem runAiWorker_single_flight (w : Workspace)
    (body : Db → Db × List WorkerEvent × Except String Unit) (s : WorkerSys) :
    (s.runningByWorkspace w = true →
      runAiWorker w body s = (s, [], Except.ok ())) ∧
    (s.runningByWorkspace w = false →
      (runAiWorker w body s).2.1 =
        WorkerEvent.flagSet w :: (body (s.dbs w)).2.1 ++ [WorkerEvent.flagCleared w] ∧
      (runAiWorker w body s).1.runningByWorkspace w = false ∧
      (runAiWorker w body s).2.2 = (body (s.dbs w)).2.2 ∧
      (runAiWorker w body s).1.dbs w = (body (s.dbs w)).1 ∧
      (∀ v, v ≠ w → (runAiWorker w body s).1.runningByWorkspace v = s.runningByWorkspace v ∧
        (runAiWorker w body s).1.dbs v = s.dbs v)) := by
  constructor
  · intro h
    simp [runAiWorker, h]
  · intro h
    refine ⟨?_, ?_, ?_, ?_, ?_⟩
    · simp [runAiWorker, h]
    · simp [runAiWorker, h]
    · simp [runAiWorker, h]
    · simp [runAiWorker, h]
    · intro v hv
      constructor <;> simp [runAiWorker, h, hv]

theorem runAiWorker_single_flight_witness :
    runAiWorker Workspace.professional bodyFail sysBusy = (sysBusy, [], Except.ok ()) ∧
    (runAiWorker Workspace.professional bodyFail sysIdle).2.1 =
      [WorkerEvent.flagSet Workspace.professional,
       WorkerEvent.flagCleared Workspace.professional] ∧
    (runAiWorker Workspace.professional bodyFail sysIdle).1.runningByWorkspace
      Workspace.professional = false ∧
    (runAiWorker Workspace.professional bodyFail sysIdle).2.2 = Except.error "crash" := by
  have h1 := (runAiWorker_single_flight Workspace.professional bodyFail sysBusy).1 rfl
  have h2 := (runAiWorker_single_flight Workspace.professional bodyFail sysIdle).2 rfl
  refine ⟨h1, ?_, h2.2.1, ?_⟩
  · rw [h2.1]
    rfl
  · rw [h2.2.2.1]
    rfl

/-! ## C5: transcribe short-circuit (corrected) -/

/-- C5 counterexample: `entryHindi` has non-empty transcript text, yet
processing its transcribe job invokes the remote transcription operation
(the `isLikelyNonEnglishTranscript` guard re-transcribes Devanagari text),
so the claimed unconditional short-circuit does not hold. -/
theorem processTranscribeJob_counterexample :
    entryHindi.transcript = Option.some "नमस्ते" ∧
    jsTrim "नमस्ते" ≠ "" ∧
    (processTranscribeJob transcribeOracleOk "j9" 300 jobT2 dbHindi).2.1 = true := by
  refine ⟨rfl, by decide, by decide⟩

/-- C5 (amended): for every transcribe job whose entry has transcript text
that is non-empty after trimming and is not flagged likely non-English,
processing skips the remote transcription call, marks the job done, and
chains a summarize job for the same entry (a `queued`/`running` summarize
job for that entry exists afterwards — freshly inserted, or the already
active one the idempotent enqueue found). -/
theorem processTranscribeJob_short_circuit
    (transcribe : String → Except String String) (newJobId : String) (now : Nat)
    (job : AiJob) (db : Db) (entry : Entry)
    (hget : getEntry job.entryId db = Option.some entry)
    (t : String) (ht : entry.transcript = Option.some t) (htne : jsTrim t ≠ "")
    (hen : isLikelyNonEnglishTranscript entry.transcript = false)
    (hfresh : newJobId ≠ job.id) :
    (processTranscribeJob transcribe newJobId now job db).2.1 = false ∧
    (processTranscribeJob transcribe newJobId now job db).2.2 = Except.ok () ∧
    (∀ j ∈ (processTranscribeJob transcribe newJobId now job db).1.jobs,
      j.id = job.id → j.status = AiJobStatus.done) ∧
    (∃ j ∈ (processTranscribeJob transcribe newJobId now job db).1.jobs,
      j.entryId = entry.id ∧ j.type = AiJobType.summarize ∧
      (j.status = AiJobStatus.queued ∨ j.status = AiJobStatus.running)) := by
  have hskip : processTranscribeJob transcribe newJobId now job db =
      (updateEntry entry.id { aiStatus := Option.some AiStatus.queued }
        (enqueueAiJob entry.id AiJobType.summarize newJobId now
          (markAiJobDone job.id now db)).2,
       false, Except.ok ()) := by
    rw [processTranscribeJob, hget]
    simp only [ht]
    rw [ht] at hen
    simp [hen, htne]
  rw [hskip]
  refine ⟨rfl, rfl, ?_, ?_⟩
  · intro j hj hid
    simp only [updateEntry] at hj
    cases hfind : (markAiJobDone job.id now db).jobs.find?
        (isActiveJobFor entry.id AiJobType.summarize) with
    | some ex =>
      simp only [enqueueAiJob, hfind] at hj
      simp only [markAiJobDone, List.mem_map] at hj
      rcases hj with ⟨j0, _, rfl⟩
      by_cases hc : (j0.id == job.id) = true
      · simp [hc]
      · exfalso
        rw [if_neg hc] at hid
        exact hc (beq_iff_eq.mpr hid)
    | none =>
      simp only [enqueueAiJob, hfind] at hj
      rcases List.mem_append.mp hj with hj1 | hj2
      · simp only [markAiJobDone, List.mem_map] at hj1
        rcases hj1 with ⟨j0, _, rfl⟩
        by_cases hc : (j0.id == job.id) = true
        · simp [hc]
        · exfalso
          rw [if_neg hc] at hid
          exact hc (beq_iff_eq.mpr hid)
      · exfalso
        simp only [List.mem_singleton] at hj2
        subst hj2
        exact hfresh hid
  · cases hfind : (markAiJobDone job.id now db).jobs.find?
        (isActiveJobFor entry.id AiJobType.summarize) with
    | some ex =>
      have hmem := List.mem_of_find?_eq_some hfind
      have hex := List.find?_some hfind
      simp only [isActiveJobFor, Bool.and_eq_true, Bool.or_eq_true, beq_iff_eq] at hex
      refine ⟨ex, ?_, hex.1.1, hex.1.2, hex.2⟩
      simp only [updateEntry, enqueueAiJob, hfind]
      exact hmem
    | none =>
      refine ⟨{ id := newJobId, entryId := entry.id, type := AiJobType.summarize,
                status := AiJobStatus.queued, attempts := 0, lastError := Option.none,
                createdAt := now, updatedAt := now }, ?_, rfl, rfl, Or.inl rfl⟩
      simp [updateEntry, enqueueAiJob, hfind]

theorem processTranscribeJob_short_circuit_witness :
    (processTranscribeJob transcribeOracleOk "j9" 300 jobT3 dbEng).2.1 = false ∧
    (processTranscribeJob transcribeOracleOk "j9" 300 jobT3 dbEng).2.2 = Except.ok () ∧
    (∃ j ∈ (processTranscribeJob transcribeOracleOk "j9" 300 jobT3 dbEng).1.jobs,
      j.entryId = "e3" ∧ j.type = AiJobType.summarize ∧
      (j.status = AiJobStatus.queued ∨ j.status = AiJobStatus.running)) := by
  have h := processTranscribeJob_short_circuit transcribeOracleOk "j9" 300 jobT3 dbEng
    entryEng (by decide) "hello world" (by decide) (by decide) (by decide) (by decide)
  exact ⟨h.1, h.2.1, h.2.2.2⟩

/-! ## C6: tag-suggestion failure is isolated from the summarize job -/

theorem getEntry_updateEntry (id id2 : String) (p : EntryPatch) (db : Db) :
    getEntry id (updateEntry id2 p db) =
      (getEntry id db).map (fun e => if e.id = id2 then applyPatch p e else e) := by
  have hf : ∀ e : Entry, ((fun e => if e.id = id2 then applyPatch p e else e) e).id = e.id := by
    intro e
    by_cases h : e.id = id2 <;> simp [h, applyPatch]
  exact find?_map_pres Entry.id (fun e => if e.id = id2 then applyPatch p e else e) hf
    db.entries id

theorem normalizeError_idem (m : String) :
    normalizeError (normalizeError m) = normalizeError m := by
  by_cases h : m = "Network request failed"
  · subst h
    decide
  · simp [normalizeError, h]

/-- C6: a summarize job whose remote summarization succeeds but whose inline
tag suggestion fails still leaves the entry at `aiStatus=summarized` with the
(non-null) formatted summary, `errorMsg` describing only the tag failure, and
the job is marked `done`: the tag failure is not escalated to job failure. -/
theorem processSummarizeJob_tag_isolation
    (summarize : String → Except String (String × List String))
    (suggest : String → String → Except String (List String)) (idGen : Nat → String)
    (now : Nat) (job : AiJob) (db : Db) (entry : Entry)
    (hget : getEntry job.entryId db = Option.some entry)
    (t : String) (ht : entry.transcript = Option.some t) (htne : jsTrim t ≠ "")
    (title : String) (bullets : List String)
    (hsum : summarize t = Except.ok (title, bullets))
    (m : String) (hsuggest : ∀ a b, suggest a b = Except.error m) :
    (processSummarizeJob summarize suggest idGen now job db).2 = Except.ok () ∧
    getEntry entry.id (processSummarizeJob summarize suggest idGen now job db).1 =
      Option.some { entry with
        summary := Option.some (formatSummary title bullets)
        aiStatus := AiStatus.summarized
        errorMsg := Option.some ("Tag generation failed: " ++ normalizeError m) } ∧
    (∀ j ∈ (processSummarizeJob summarize suggest idGen now job db).1.jobs,
      j.id = job.id → j.status = AiJobStatus.done) := by
  have hide : entry.id = job.entryId := by
    have := List.find?_some hget
    simpa using this
  have hget1 : getEntry entry.id (updateEntry entry.id
      { summary := Option.some (Option.some (formatSummary title bullets))
        aiStatus := Option.some AiStatus.summarized
        errorMsg := Option.some Option.none } db) =
      Option.some (applyPatch
        { summary := Option.some (Option.some (formatSummary title bullets))
          aiStatus := Option.some AiStatus.summarized
          errorMsg := Option.some Option.none } entry) := by
    rw [getEntry_updateEntry, hide, hget]
    simp [← hide]
  have htr1 : (applyPatch
      { summary := Option.some (Option.some (formatSummary title bullets))
        aiStatus := Option.some AiStatus.summarized
        errorMsg := Option.some Option.none } entry).transcript = Option.some t := by
    simp [applyPatch, ht]
  have hgen : generateTagsForEntry suggest idGen entry.id (updateEntry entry.id
      { summary := Option.some (Option.some (formatSummary title bullets))
        aiStatus := Option.some AiStatus.summarized
        errorMsg := Option.some Option.none } db) =
      (updateEntry entry.id
        { errorMsg := Option.some (Option.some ("Tag generation failed: " ++ normalizeError m)) }
        (updateEntry entry.id
          { summary := Option.some (Option.some (formatSummary title bullets))
            aiStatus := Option.some AiStatus.summarized
            errorMsg := Option.some Option.none } db),
       Except.error (normalizeError m)) := by
    simp only [generateTagsForEntry, hget1, htr1, Option.getD_some, hsuggest]
    simp [htne]
  have hrun : processSummarizeJob summarize suggest idGen now job db =
      (markAiJobDone job.id now
        (updateEntry entry.id
          { aiStatus := Option.some AiStatus.summarized
            errorMsg := Option.some (Option.some ("Tag generation failed: " ++ normalizeError m)) }
          (updateEntry entry.id
            { errorMsg := Option.some (Option.some ("Tag generation failed: " ++ normalizeError m)) }
            (updateEntry entry.id
              { summary := Option.some (Option.some (formatSummary title bullets))
                aiStatus := Option.some AiStatus.summarized
                errorMsg := Option.some Option.none } db))),
       Except.ok ()) := by
    simp only [processSummarizeJob, hget, ht, Option.getD_some, hsum]
    simp only [hgen]
    simp [htne, normalizeError_idem]
  rw [hrun]
  refine ⟨rfl, ?_, ?_⟩
  · show getEntry entry.id (updateEntry entry.id _ (updateEntry entry.id _ _)) = _
    rw [getEntry_updateEntry, getEntry_updateEntry, hget1]
    simp [applyPatch]
  · intro j hj hid
    have hj2 : j ∈ (db.jobs.map (fun j =>
        if j.id == job.id
        then { j with status := AiJobStatus.done, updatedAt := now } else j)) := by
      simpa [markAiJobDone, updateEntry] using hj
    rcases List.mem_map.mp hj2 with ⟨j0, _, rfl⟩
    by_cases hc : (j0.id == job.id) = true
    · simp [hc]
    · exfalso
      rw [if_neg hc] at hid
      exact hc (beq_iff_eq.mpr hid)

theorem processSummarizeJob_tag_isolation_witness :
    (processSummarizeJob summOracleOk suggestFailOracle idGenW 400 jobS3 dbSumm).2 =
      Except.ok () ∧
    getEntry entryEng.id
        (processSummarizeJob summOracleOk suggestFailOracle idGenW 400 jobS3 dbSumm).1 =
      Option.some { entryEng with
        summary := Option.some "Title\n- b1"
        aiStatus := AiStatus.summarized
        errorMsg := Option.some "Tag generation failed: tags down" } := by
  have h := processSummarizeJob_tag_isolation summOracleOk suggestFailOracle idGenW 400
    jobS3 dbSumm entryEng (by decide) "hello world" rfl (by decide)
    "Title" ["b1"] rfl "tags down" (fun a b => rfl)
  refine ⟨h.1, ?_⟩
  rw [h.2.1]
  decide

/-! ## C7: is `done` terminal? (corrected) -/

/-- C7 counterexample: `done` is not terminal against `requeueOrFailAiJob`.
Its `UPDATE ... WHERE id = ?` has no status guard, so calling it with the
done job's snapshot (exactly what the worker does when a failure occurs
after `markAiJobDone`, e.g. a rejected chained enqueue) moves the row from
`done` back to `queued`. -/
theorem markAiJobDone_done_counterexample :
    (dbDone.jobs.find? (fun j => j.id == "j5")).map AiJob.status =
      Option.some AiJobStatus.done ∧
    ((requeueOrFailAiJob jobDone "late failure" 3 600 dbDone).jobs.find?
        (fun j => j.id == "j5")).map AiJob.status =
      Option.some AiJobStatus.queued := by
  decide

/-- C7 (amended): once a job's row is `done`, every queue operation except
`requeueOrFailAiJob` preserves that status — enqueueing (with a fresh id),
claiming, marking done again, and entry updates never move a row out of
`done`; `requeueOrFailAiJob` also preserves it whenever it is invoked for a
different job id.  Only `requeueOrFailAiJob` applied to the done job's own
snapshot can overwrite `done` (see the counterexample). -/
theorem done_terminal_except_requeue (jid : String) (db : Db)
    (hdone : ∀ j ∈ db.jobs, j.id = jid → j.status = AiJobStatus.done) :
    (∀ entryId t newId now, newId ≠ jid →
      ∀ j ∈ (enqueueAiJob entryId t newId now db).2.jobs,
        j.id = jid → j.status = AiJobStatus.done) ∧
    (∀ now, ∀ j ∈ (claimNextQueuedAiJob now db).2.jobs,
      j.id = jid → j.status = AiJobStatus.done) ∧
    (∀ jobId now, ∀ j ∈ (markAiJobDone jobId now db).jobs,
      j.id = jid → j.status = AiJobStatus.done) ∧
    (∀ id p, ∀ j ∈ (updateEntry id p db).jobs,
      j.id = jid → j.status = AiJobStatus.done) ∧
    (∀ job msg maxAttempts now, job.id ≠ jid →
      ∀ j ∈ (requeueOrFailAiJob job msg maxAttempts now db).jobs,
        j.id = jid → j.status = AiJobStatus.done) := by
  refine ⟨?_, ?_, ?_, ?_, ?_⟩
  · intro entryId t newId now hfresh j hj hid
    cases hfind : db.jobs.find? (isActiveJobFor entryId t) with
    | some ex =>
      simp only [enqueueAiJob, hfind] at hj
      exact hdone j hj hid
    | none =>
      simp only [enqueueAiJob, hfind, updateEntry] at hj
      rcases List.mem_append.mp hj with hj1 | hj2
      · exact hdone j hj1 hid
      · exfalso
        simp only [List.mem_singleton] at hj2
        subst hj2
        exact hfresh hid
  · intro now j hj hid
    cases hsel : selectNextQueued db with
    | none =>
      simp only [claimNextQueuedAiJob, claimNextQueuedAiJobAt, hsel] at hj
      exact hdone j hj hid
    | some next =>
      have hj2 : j ∈ (casClaimApply next.id now db).jobs := by
        simp only [claimNextQueuedAiJob, claimNextQueuedAiJobAt, hsel] at hj
        by_cases hch : casClaimChanges next.id db = 0
        · rw [if_pos hch] at hj
          exact hj
        · rw [if_neg hch] at hj
          exact hj
      simp only [casClaimApply, List.mem_map] at hj2
      rcases hj2 with ⟨j0, hj0, rfl⟩
      by_cases hc : (j0.id == next.id && j0.status == AiJobStatus.queued) = true
      · exfalso
        rw [if_pos hc] at hid
        simp only [Bool.and_eq_true, beq_iff_eq] at hc
        simp only at hid
        have := hdone j0 hj0 hid
        rw [this] at hc
        cases hc.2
      · rw [if_neg hc] at hid ⊢
        exact hdone j0 hj0 hid
  · intro jobId now j hj hid
    simp only [markAiJobDone, List.mem_map] at hj
    rcases hj with ⟨j0, hj0, rfl⟩
    by_cases hc : (j0.id == jobId) = true
    · simp [hc]
    · rw [if_neg hc] at hid ⊢
      exact hdone j0 hj0 hid
  · intro id p j hj hid
    simp only [updateEntry] at hj
    exact hdone j hj hid
  · intro job msg maxAttempts now hne j hj hid
    simp only [requeueOrFailAiJob, updateEntry, List.mem_map] at hj
    rcases hj with ⟨j0, hj0, rfl⟩
    by_cases hc : (j0.id == job.id) = true
    · exfalso
      rw [if_pos hc] at hid
      simp only at hid
      exact hne (hid ▸ eq_of_beq hc ▸ rfl)
    · rw [if_neg hc] at hid ⊢
      exact hdone j0 hj0 hid

theorem done_terminal_except_requeue_witness :
    (∀ j ∈ (enqueueAiJob "e1" AiJobType.transcribe "j6" 700 dbDone).2.jobs,
      j.id = "j5" → j.status = AiJobStatus.done) ∧
    (∀ j ∈ (claimNextQueuedAiJob 700 dbDone).2.jobs,
      j.id = "j5" → j.status = AiJobStatus.done) ∧
    (∀ j ∈ (markAiJobDone "j6" 700 dbDone).jobs,
      j.id = "j5" → j.status = AiJobStatus.done) := by
  have h := done_terminal_except_requeue "j5" dbDone (by decide)
  exact ⟨h.1 "e1" AiJobType.transcribe "j6" 700 (by decide), h.2.1 700, h.2.2.1 "j6" 700⟩

/-! ## C8: summary format/parse round-trip (corrected) -/

theorem dropWhile_len_le (p : Char → Bool) (l : List Char) :
    (l.dropWhile p).length ≤ l.length := by
  induction l with
  | nil => simp [List.dropWhile]
  | cons c rest ih =>
    by_cases h : p c
    · simp only [List.dropWhile, h]
      exact Nat.le_succ_of_le ih
    · simp [List.dropWhile, h]

theorem dropWhile_eq_self_of_len (p : Char → Bool) (l : List Char)
    (h : (l.dropWhile p).length = l.length) : l.dropWhile p = l := by
  cases l with
  | nil => rfl
  | cons c rest =>
    by_cases hp : p c
    · exfalso
      simp only [List.dropWhile, hp] at h
      simp only [List.length_cons] at h
      have := dropWhile_len_le p rest
      omega
    · simp [List.dropWhile, hp]

theorem dropWhile_eq_self_head (p : Char → Bool) (c : Char) (rest : List Char)
    (h : (c :: rest).dropWhile p = c :: rest) : p c = false := by
  by_cases hp : p c
  · exfalso
    simp only [List.dropWhile, hp] at h
    have h1 := dropWhile_len_le p rest
    have h2 : (rest.dropWhile p).length = rest.length + 1 := by
      rw [h]
      rfl
    omega
  · simp [hp]

theorem dtw_len_le (l : List Char) : (dropTrailingWs l).length ≤ l.length := by
  induction l with
  | nil => simp [dropTrailingWs]
  | cons c rest ih =>
    simp only [dropTrailingWs]
    split
    · simp
    · simp only [List.length_cons]
      omega

theorem dtw_append (xs ys : List Char) (h : dropTrailingWs ys ≠ []) :
    dropTrailingWs (xs ++ ys) = xs ++ dropTrailingWs ys := by
  induction xs with
  | nil => simp
  | cons c rest ih =>
    rw [List.cons_append]
    simp only [dropTrailingWs]
    rw [ih]
    have hne : ¬ rest ++ dropTrailingWs ys = [] := by
      intro hc
      exact h (List.append_eq_nil.mp hc).2
    simp [hne]

theorem dtw_idem (l : List Char) : dropTrailingWs (dropTrailingWs l) = dropTrailingWs l := by
  induction l with
  | nil => rfl
  | cons c rest ih =>
    simp only [dropTrailingWs]
    split
    · rfl
    · rename_i hcond
      simp only [dropTrailingWs, ih]
      simp only [if_neg hcond]

theorem trim_eq_self_parts (l : List Char) (h : trimChars l = l) :
    l.dropWhile isJsWs = l ∧ dropTrailingWs l = l := by
  have hlen1 : (l.dropWhile isJsWs).length ≤ l.length := dropWhile_len_le isJsWs l
  have hlen2 : (trimChars l).length ≤ (l.dropWhile isJsWs).length := by
    rw [trimChars]
    exact dtw_len_le _
  have hlen3 : (trimChars l).length = l.length := by rw [h]
  have hdw : l.dropWhile isJsWs = l :=
    dropWhile_eq_self_of_len isJsWs l (by omega)
  refine ⟨hdw, ?_⟩
  have : trimChars l = dropTrailingWs l := by
    rw [trimChars, hdw]
  rw [← this, h]

theorem splitOnNl_no_nl (l : List Char) (h : ¬ '\n' ∈ l) : splitOnNl l = [l] := by
  induction l with
  | nil => rfl
  | cons c rest ih =>
    have hc : ¬ c = '\n' := by
      intro hcc
      exact h (hcc ▸ List.mem_cons_self c rest)
    have hrest : ¬ '\n' ∈ rest := fun hr => h (List.mem_cons_of_mem c hr)
    simp only [splitOnNl, hc, if_neg, if_false, ih hrest]

theorem splitOnNl_append (l rest : List Char) (h : ¬ '\n' ∈ l) :
    splitOnNl (l ++ '\n' :: rest) = l :: splitOnNl rest := by
  induction l with
  | nil => simp [splitOnNl]
  | cons c l2 ih =>
    have hc : ¬ c = '\n' := by
      intro hcc
      exact h (hcc ▸ List.mem_cons_self c l2)
    have hl2 : ¬ '\n' ∈ l2 := fun hr => h (List.mem_cons_of_mem c hr)
    rw [List.cons_append]
    simp only [splitOnNl, List.append_eq]
    rw [ih hl2]
    simp [hc]

theorem joinLines_cons (l : List Char) (ls : List (List Char)) :
    ∃ r, joinLines (l :: ls) = l ++ r := by
  cases ls with
  | nil => exact ⟨[], by simp [joinLines]⟩
  | cons l2 ls2 => exact ⟨'\n' :: joinLines (l2 :: ls2), by simp [joinLines]⟩

theorem split_joinLines (pieces : List (List Char)) (hne : pieces ≠ [])
    (h : ∀ p ∈ pieces, ¬ '\n' ∈ p) : splitOnNl (joinLines pieces) = pieces := by
  induction pieces with
  | nil => exact absurd rfl hne
  | cons p ps ih =>
    cases ps with
    | nil =>
      simp only [joinLines]
      exact splitOnNl_no_nl p (h p (List.mem_cons_self p []))
    | cons q ps2 =>
      simp only [joinLines]
      rw [splitOnNl_append p _ (h p (List.mem_cons_self p _))]
      rw [ih (by simp) (fun x hx => h x (List.mem_cons_of_mem p hx))]

theorem dtw_joinLines (pieces : List (List Char)) (hne : pieces ≠ [])
    (h : ∀ p ∈ pieces, dropTrailingWs p = p ∧ p ≠ []) :
    dropTrailingWs (joinLines pieces) = joinLines pieces := by
  induction pieces with
  | nil => exact absurd rfl hne
  | cons p ps ih =>
    cases ps with
    | nil =>
      simp only [joinLines]
      exact (h p (List.mem_cons_self p [])).1
    | cons q ps2 =>
      simp only [joinLines]
      have hJ : dropTrailingWs (joinLines (q :: ps2)) = joinLines (q :: ps2) :=
        ih (by simp) (fun x hx => h x (List.mem_cons_of_mem p hx))
      have hJne : joinLines (q :: ps2) ≠ [] := by
        rcases joinLines_cons q ps2 with ⟨r, hr⟩
        rw [hr]
        have hq : q ≠ [] := (h q (List.mem_cons_of_mem p (List.mem_cons_self q ps2))).2
        intro hc
        exact hq (List.append_eq_nil.mp hc).1
      have : p ++ '\n' :: joinLines (q :: ps2) = (p ++ ['\n']) ++ joinLines (q :: ps2) := by
        simp
      rw [this, dtw_append _ _ (by rw [hJ]; exact hJne), hJ]

theorem trim_joinLines (t : List Char) (ps : List (List Char))
    (ht1 : trimChars t = t) (ht0 : t ≠ [])
    (h : ∀ p ∈ t :: ps, dropTrailingWs p = p ∧ p ≠ []) :
    trimChars (joinLines (t :: ps)) = joinLines (t :: ps) := by
  have hdw : (joinLines (t :: ps)).dropWhile isJsWs = joinLines (t :: ps) := by
    rcases joinLines_cons t ps with ⟨r, hr⟩
    cases t with
    | nil => exact absurd rfl ht0
    | cons c t2 =>
      have hcw : isJsWs c = false :=
        dropWhile_eq_self_head isJsWs c t2 (trim_eq_self_parts _ ht1).1
      rw [hr, List.cons_append]
      simp [List.dropWhile, hcw]
  rw [trimChars, hdw]
  exact dtw_joinLines _ (by simp) h

theorem dash_piece_trim (b : List Char) (hb0 : b ≠ []) (hb1 : trimChars b = b) :
    trimChars ('-' :: ' ' :: b) = '-' :: ' ' :: b := by
  have hparts := trim_eq_self_parts b hb1
  have hdtwb : dropTrailingWs ('-' :: ' ' :: b) = '-' :: ' ' :: b := by
    have heq : ('-' :: ' ' :: b) = ['-', ' '] ++ b := rfl
    rw [heq, dtw_append _ _ (by rw [hparts.2]; exact hb0), hparts.2]
  rw [trimChars]
  have hdw : ('-' :: ' ' :: b).dropWhile isJsWs = '-' :: ' ' :: b := by
    have : isJsWs '-' = false := by decide
    simp [List.dropWhile, this]
  rw [hdw, hdtwb]

theorem dash_piece_strip (b : List Char) (_hb0 : b ≠ []) (hb1 : trimChars b = b) :
    trimChars (stripLeadingDashes ('-' :: ' ' :: b)) = b := by
  have hparts := trim_eq_self_parts b hb1
  have hstrip : stripLeadingDashes ('-' :: ' ' :: b) = b := by
    simp only [stripLeadingDashes, if_pos rfl]
    have h1 : ('-' :: ' ' :: b).dropWhile (fun c2 => c2 = '-') = ' ' :: b := by
      have hd : (' ' = '-') = False := by simp
      simp [List.dropWhile]
    rw [h1]
    have h2 : (' ' :: b).dropWhile isJsWs = b.dropWhile isJsWs := by
      have : isJsWs ' ' = true := by decide
      simp [List.dropWhile, this]
    rw [h2, hparts.1]
    simp
  rw [hstrip, hb1]

theorem parse_format_roundtrip_chars (t : List Char) (bs : List (List Char))
    (ht0 : t ≠ []) (ht1 : trimChars t = t) (ht2 : ¬ '\n' ∈ t)
    (hb : ∀ b ∈ bs, b ≠ [] ∧ trimChars b = b ∧ ¬ '\n' ∈ b) :
    parseSummaryChars (Option.some (formatSummaryChars t bs)) = (Option.some t, bs) := by
  have hpieceprops : ∀ p ∈ t :: bs.map (fun b => '-' :: ' ' :: b),
      dropTrailingWs p = p ∧ p ≠ [] := by
    intro p hp
    rcases List.mem_cons.mp hp with rfl | hp2
    · exact ⟨(trim_eq_self_parts p ht1).2, ht0⟩
    · rcases List.mem_map.mp hp2 with ⟨b, hbmem, rfl⟩
      rcases hb b hbmem with ⟨hb0, hb1, _⟩
      refine ⟨?_, by simp⟩
      have hparts := trim_eq_self_parts b hb1
      have heq : ('-' :: ' ' :: b) = ['-', ' '] ++ b := rfl
      rw [heq, dtw_append _ _ (by rw [hparts.2]; exact hb0), hparts.2]
  have hnonl : ∀ p ∈ t :: bs.map (fun b => '-' :: ' ' :: b), ¬ '\n' ∈ p := by
    intro p hp
    rcases List.mem_cons.mp hp with rfl | hp2
    · exact ht2
    · rcases List.mem_map.mp hp2 with ⟨b, hbmem, rfl⟩
      have := (hb b hbmem).2.2
      intro hc
      rcases List.mem_cons.mp hc with h1 | h2
      · cases h1
      · rcases List.mem_cons.mp h2 with h3 | h4
        · cases h3
        · exact this h4
  have hX : trimChars (formatSummaryChars t bs) = formatSummaryChars t bs :=
    trim_joinLines t _ ht1 ht0 hpieceprops
  have hXne : formatSummaryChars t bs ≠ [] := by
    rw [formatSummaryChars]
    rcases joinLines_cons t (bs.map (fun b => '-' :: ' ' :: b)) with ⟨r, hr⟩
    rw [hr]
    intro hc
    exact ht0 (List.append_eq_nil.mp hc).1
  have hsplit : splitOnNl (formatSummaryChars t bs) =
      t :: bs.map (fun b => '-' :: ' ' :: b) :=
    split_joinLines _ (by simp) hnonl
  have hlinesmap : (t :: bs.map (fun b => '-' :: ' ' :: b)).map trimChars =
      t :: bs.map (fun b => '-' :: ' ' :: b) := by
    have : ∀ p ∈ t :: bs.map (fun b => '-' :: ' ' :: b), trimChars p = p := by
      intro p hp
      rcases List.mem_cons.mp hp with rfl | hp2
      · exact ht1
      · rcases List.mem_map.mp hp2 with ⟨b, hbmem, rfl⟩
        exact dash_piece_trim b (hb b hbmem).1 (hb b hbmem).2.1
    rw [List.map_congr_left this, List.map_id' _]
  have hlinesfilter : (t :: bs.map (fun b => '-' :: ' ' :: b)).filter
      (fun l => l ≠ []) = t :: bs.map (fun b => '-' :: ' ' :: b) := by
    rw [List.filter_eq_self]
    intro p hp
    have := (hpieceprops p hp).2
    simpa using this
  rw [parseSummaryChars]
  simp only [Option.getD_some, hX, hsplit, hlinesmap, hlinesfilter]
  rw [if_neg hXne]
  simp only [List.head?_cons, List.drop_one, List.tail_cons]
  refine Prod.ext rfl ?_
  show ((bs.map (fun b => '-' :: ' ' :: b)).map
      (fun line => trimChars (stripLeadingDashes line))).filter (fun l => l ≠ []) = bs
  rw [List.map_map]
  have hcomp : ∀ b ∈ bs,
      ((fun line => trimChars (stripLeadingDashes line)) ∘ (fun b => '-' :: ' ' :: b)) b
        = b := by
    intro b hbmem
    exact dash_piece_strip b (hb b hbmem).1 (hb b hbmem).2.1
  rw [List.map_congr_left hcomp, List.map_id' _]
  rw [List.filter_eq_self]
  intro b hbmem
  have := (hb b hbmem).1
  simpa using this

/-- C8 counterexample: formatting the empty title with no bullets and
parsing the result back yields a `null` title, not the original empty
string, so the round-trip does not hold for every title. -/
theorem formatSummary_parseSummary_counterexample :
    parseSummary (Option.some (formatSummary "" [])) ≠ (Option.some "", []) := by
  decide

/-- C8 (amended): for every title and list of 0 to 5 bullets that are
non-empty, equal to their own trim, and contain no newline character,
formatting the summary (title line, then each bullet prefixed with a dash)
and parsing the blob back recovers the title and bullet list exactly. -/
theorem formatSummary_parseSummary_roundtrip (title : String) (bullets : List String)
    (ht0 : title ≠ "") (ht1 : jsTrim title = title) (ht2 : ¬ '\n' ∈ title.data)
    (hb : ∀ b ∈ bullets, b ≠ "" ∧ jsTrim b = b ∧ ¬ '\n' ∈ b.data)
    (_hlen : bullets.length ≤ 5) :
    parseSummary (Option.some (formatSummary title bullets)) =
      (Option.some title, bullets) := by
  have ht0c : title.data ≠ [] := by
    intro hc
    apply ht0
    have he : title = ⟨title.data⟩ := rfl
    rw [he, hc]
  have ht1c : trimChars title.data = title.data := congrArg String.data ht1
  have hbc : ∀ b ∈ bullets.map String.data,
      b ≠ [] ∧ trimChars b = b ∧ ¬ '\n' ∈ b := by
    intro b hbmem
    rcases List.mem_map.mp hbmem with ⟨s, hs, rfl⟩
    rcases hb s hs with ⟨h1, h2, h3⟩
    refine ⟨?_, congrArg String.data h2, h3⟩
    intro hc
    apply h1
    have he : s = ⟨s.data⟩ := rfl
    rw [he, hc]
  have hchar := parse_format_roundtrip_chars title.data (bullets.map String.data)
    ht0c ht1c ht2 hbc
  rw [parseSummary]
  have harg : (Option.some (formatSummary title bullets)).map String.data =
      Option.some (formatSummaryChars title.data (bullets.map String.data)) := rfl
  rw [harg, hchar]
  simp only [Option.map_some]
  refine Prod.ext rfl ?_
  show (bullets.map String.data).map (fun l => (⟨l⟩ : String)) = bullets
  rw [List.map_map]
  have : ∀ s ∈ bullets, ((fun l => (⟨l⟩ : String)) ∘ String.data) s = s := by
    intro s _
    rfl
  rw [List.map_congr_left this, List.map_id' _]

theorem formatSummary_parseSummary_roundtrip_witness :
    parseSummary (Option.some (formatSummary "Trip planning"
      ["Book flights", "Reserve hotel"])) =
      (Option.some "Trip planning", ["Book flights", "Reserve hotel"]) := by
  exact formatSummary_parseSummary_roundtrip "Trip planning"
    ["Book flights", "Reserve hotel"] (by decide) (by decide) (by decide)
    (by decide) (by decide)

/-! ## C9: tag suggestion response handling (corrected) -/

theorem dropWhile_head_false (p : Char → Bool) :
    ∀ (l : List Char) c rest, l.dropWhile p = c :: rest → p c = false := by
  intro l
  induction l with
  | nil => intro c rest h; cases h
  | cons a t ih =>
    intro c rest h
    by_cases hp : p a
    · simp only [List.dropWhile, hp] at h
      exact ih c rest h
    · simp only [List.dropWhile, Bool.of_not_eq_true hp] at h
      cases h
      simpa using hp

theorem dtw_cons_head (c : Char) (rest : List Char)
    (h : dropTrailingWs (c :: rest) ≠ []) :
    ∃ r, dropTrailingWs (c :: rest) = c :: r := by
  simp only [dropTrailingWs] at h ⊢
  split at h
  · exact absurd rfl h
  · rename_i hcond
    rw [if_neg hcond]
    exact ⟨dropTrailingWs rest, rfl⟩

theorem trimChars_idem (l : List Char) : trimChars (trimChars l) = trimChars l := by
  cases hl2 : trimChars l with
  | nil => rfl
  | cons c r2 =>
    have hdtw : dropTrailingWs (c :: r2) = c :: r2 := by
      rw [← hl2]
      calc dropTrailingWs (trimChars l)
          = dropTrailingWs (dropTrailingWs (l.dropWhile isJsWs)) := rfl
        _ = dropTrailingWs (l.dropWhile isJsWs) := dtw_idem _
        _ = trimChars l := rfl
    have hhead : isJsWs c = false := by
      cases hl1 : l.dropWhile isJsWs with
      | nil =>
        exfalso
        have hnil : trimChars l = [] := by rw [trimChars, hl1]; rfl
        rw [hl2] at hnil
        cases hnil
      | cons c1 rest1 =>
        have hc1 : isJsWs c1 = false := dropWhile_head_false isJsWs l c1 rest1 hl1
        have hne : dropTrailingWs (c1 :: rest1) ≠ [] := by
          have heq : trimChars l = dropTrailingWs (c1 :: rest1) := by rw [trimChars, hl1]
          rw [hl2] at heq
          rw [← heq]
          intro hc
          cases hc
        rcases dtw_cons_head c1 rest1 hne with ⟨r, hr⟩
        have heq2 : trimChars l = c1 :: r := by rw [trimChars, hl1, hr]
        rw [hl2] at heq2
        cases heq2
        exact hc1
    rw [trimChars]
    have hdw : (c :: r2).dropWhile isJsWs = c :: r2 := by
      simp [List.dropWhile, hhead]
    rw [hdw, hdtw]

theorem jsTrim_idem (s : String) : jsTrim (jsTrim s) = jsTrim s := by
  simp only [jsTrim]
  exact congrArg (fun l => (⟨l⟩ : String)) (trimChars_idem s.data)

/-- C9 counterexample: the client does not lowercase tags — a backend
response carrying `["Work"]` is returned verbatim, and it contains an
uppercase character, so the result is not a list of lowercase strings. -/
theorem suggestTagsViaBackend_counterexample :
    suggestTagsViaBackend (Option.some ["Work"]) = ["Work"] ∧
    ('W' ∈ ("Work" : String).data ∧ Char.isUpper 'W' = true) := by
  decide

/-- C9 (amended): for every backend response body, `suggestTagsViaBackend`
returns at most 8 tag strings, each non-empty and equal to its own trim
(the client trims and filters but does not lowercase or shorten them); a
response whose `tags` field is missing or not an array yields the empty
list as a valid result rather than an error. -/
theorem suggestTagsViaBackend_spec (tagsField : Option (List String)) :
    (suggestTagsViaBackend tagsField).length ≤ 8 ∧
    (∀ s ∈ suggestTagsViaBackend tagsField, s ≠ "" ∧ jsTrim s = s) ∧
    suggestTagsViaBackend Option.none = [] := by
  refine ⟨?_, ?_, rfl⟩
  · cases tagsField with
    | none => simp [suggestTagsViaBackend]
    | some tags =>
      simp only [suggestTagsViaBackend]
      exact List.length_take_le 8 _
  · intro s hs
    cases tagsField with
    | none => simp [suggestTagsViaBackend] at hs
    | some tags =>
      simp only [suggestTagsViaBackend] at hs
      have hs2 := List.take_subset 8 _ hs
      have hs3 := List.mem_filter.mp hs2
      have hne : s ≠ "" := by simpa using hs3.2
      refine ⟨hne, ?_⟩
      rcases List.mem_map.mp hs3.1 with ⟨x, _, rfl⟩
      exact jsTrim_idem x

theorem suggestTagsViaBackend_spec_witness :
    (suggestTagsViaBackend (Option.some ["  focus  ", "", "Work"])).length ≤ 8 ∧
    ("focus" ≠ "" ∧ jsTrim "focus" = "focus") := by
  have h := suggestTagsViaBackend_spec (Option.some ["  focus  ", "", "Work"])
  exact ⟨h.1, h.2.1 "focus" (by decide)⟩

end VoiceJournal
